import Mathlib

/-!
Verification of the HMLR conversational-memory core against its
natural-language specification.  The Python sources are shallowly embedded:
pure functions become Lean functions on `List Char` / `String` / `Nat` / `ℚ`,
stateful code becomes explicit state passing, fallible code returns
`Except` / `Option`.  Components of the repository that are only called from
the embedded code (the `DailyStorage` bridge-block ledger, the models module)
are modelled from the specification, and each such definition carries a doc
comment saying so.
-/

namespace HMLR

/-! ## Token estimation (src/tests/test_large_text_chunking.py, lines 14-16)

```python
def estimate_tokens(text: str) -> int:
    return len(text) // 4
```
Text is embedded as `List Char`; Python `//` is Nat division. -/

def estimate_tokens (text : List Char) : Nat :=
  text.length / 4

/-! ## The chunker convenience function (src/hmlr/memory/embeddings/chunker.py)

The module body of `hmlr.memory.embeddings.chunker` consists of `import re`,
`from typing import List, Tuple`, and `def chunk_conversation`.  No class
`SemanticChunker` is defined or imported, so the name lookup performed when
the body of `chunk_conversation` executes fails and Python raises a
`NameError`.  We embed the module-level name environment literally and model
the name lookup that the function body performs. -/

/-- Names bound at module level in `hmlr/memory/embeddings/chunker.py`:
`import re` binds `re`; `from typing import List, Tuple` binds `List` and
`Tuple`; the `def` statement binds `chunk_conversation`.  Nothing binds
`SemanticChunker`. -/
def chunkerModuleGlobals : List String :=
  ["re", "List", "Tuple", "chunk_conversation"]

/-- Python runtime errors relevant to the embedded fragment. -/
inductive PyError where
  | nameError (name : String)
deriving DecidableEq

/-- Embedding of `chunk_conversation(user_message, assistant_response,
max_chunk_size)`.  The body first resolves the global name
`SemanticChunker`; if the name is absent from the module globals the call
raises `NameError` before anything else can run.  The `.ok []` branch is
unreachable on the actual module globals because the name is not bound; no
body for it exists in the module (the class is missing), so no behaviour is
lost by the placeholder. -/
def chunk_conversation (user_message assistant_response : String)
    (max_chunk_size : Nat) : Except PyError (List String) :=
  if "SemanticChunker" ∈ chunkerModuleGlobals then
    .ok []
  else
    .error (.nameError "SemanticChunker")

/-! ## Sliding-window persistence (src/hmlr/memory/sliding_window_persistence.py)

`load_window` reads a JSON state file.  The observable inputs are: the file
is missing; opening / reading / `json.load` raises; or a JSON document was
parsed, with an optional `version` field and a list of raw turns each of
which either deserializes into a `ConversationTurn` or raises.  The turn
type is abstract (`α`): no claim inspects turn contents. -/

/-- Parsed JSON state document: the value of `state.get("version")` (absent
field gives `none`) and the raw turn list, each entry recording whether it
deserializes (`some turn`) or raises during field access (`none`). -/
structure RawWindowState (α : Type) where
  version : Option String
  turns : List (Option α)

/-- Observable state of the sliding-window file when `load_window` runs. -/
inductive WindowFileState (α : Type) where
  | missing
  | readFailure
  | parseFailure
  | parsed (state : RawWindowState α)

/-- Embedding of `SlidingWindowStateError`; the message distinguishes the
raise sites, the type is the same. -/
structure SlidingWindowStateError where
  message : String
deriving DecidableEq

/-- Embedding of `STATE_VERSION = "1"`. -/
def STATE_VERSION : String := "1"

/-- Deserialization loop of `load_window` (lines 117-137): build the turn
list entry by entry; any failing entry aborts the whole load. -/
def deserializeTurns {α : Type} : List (Option α) → Option (List α)
  | [] => some []
  | none :: _ => none
  | some t :: rest =>
    match deserializeTurns rest with
    | some ts => some (t :: ts)
    | none => none

/-- Embedding of `SlidingWindowPersistence.load_window` (lines 96-144).
Missing file returns the empty list; a read or parse failure raises
`SlidingWindowStateError`; a version different from `STATE_VERSION` raises;
a failure while deserializing any turn raises. -/
def load_window {α : Type} : WindowFileState α → Except SlidingWindowStateError (List α)
  | .missing => .ok []
  | .readFailure => .error ⟨"Failed to read sliding window state"⟩
  | .parseFailure => .error ⟨"Failed to read sliding window state"⟩
  | .parsed st =>
    if st.version ≠ some STATE_VERSION then
      .error ⟨"Sliding window state version mismatch"⟩
    else
      match deserializeTurns st.turns with
      | some turns => .ok turns
      | none => .error ⟨"Failed to deserialize sliding window state"⟩

/-! ## Dossier fact-embedding storage (src/hmlr/memory/dossier_storage.py)

The table `dossier_fact_embeddings` has `fact_id TEXT PRIMARY KEY` and a
`dossier_id` column (lines 55-64).  The table state is embedded as a list of
rows in rowid (insertion) order; the embedding blob is abstract (`α`): the
claims concern row management and the ordering logic of the search, and
float arithmetic is abstracted into a score function.  The `created_at`
column is omitted; no claim concerns it. -/

structure StoredFactEmbedding (α : Type) where
  fact_id : String
  dossier_id : String
  embedding : α
deriving DecidableEq

/-- Embedding of `save_fact_embedding` (lines 70-103): `INSERT OR REPLACE`
on the primary key `fact_id` deletes any conflicting row and appends the new
row (fresh rowid, hence at the end in insertion order). -/
def save_fact_embedding {α : Type} (table : List (StoredFactEmbedding α))
    (fact_id dossier_id : String) (embedding : α) : List (StoredFactEmbedding α) :=
  table.filter (fun r => !(r.fact_id == fact_id)) ++ [⟨fact_id, dossier_id, embedding⟩]

/-- Embedding of `delete_dossier_embeddings` (lines 220-245):
`DELETE FROM dossier_fact_embeddings WHERE dossier_id = ?`. -/
def delete_dossier_embeddings {α : Type} (table : List (StoredFactEmbedding α))
    (dossier_id : String) : List (StoredFactEmbedding α) :=
  table.filter (fun r => !(r.dossier_id == dossier_id))

/-- An operation on the `dossier_fact_embeddings` table. -/
inductive EmbeddingOp (α : Type) where
  | save (fact_id dossier_id : String) (embedding : α)
  | deleteDossier (dossier_id : String)

def applyEmbeddingOp {α : Type} (table : List (StoredFactEmbedding α)) :
    EmbeddingOp α → List (StoredFactEmbedding α)
  | .save fid did e => save_fact_embedding table fid did e
  | .deleteDossier did => delete_dossier_embeddings table did

def runEmbeddingOps {α : Type} (table : List (StoredFactEmbedding α))
    (ops : List (EmbeddingOp α)) : List (StoredFactEmbedding α) :=
  ops.foldl applyEmbeddingOp table

/-! ## Fact similarity search (src/hmlr/memory/dossier_storage.py, lines 105-170)

`search_similar_facts` embeds the query, scans every stored row, computes a
cosine similarity, keeps rows scoring at least the threshold, sorts by score
descending with Python `list.sort` (a stable sort), and truncates to
`top_k`.  Floating-point cosine similarity of the encoded query against a
stored blob is abstracted into a function `simFn : α → ℚ` fixed by the query
(the claims quantify over all queries and all stored embeddings, so nothing
is lost).  Since stable sorts are extensionally unique, the stable
descending insertion sort below is the same function as CPython Timsort with
`key=lambda x: x[2], reverse=True`. -/

/-- Scan loop of `search_similar_facts` (lines 146-157): score each row in
rowid order and keep those with similarity at least the threshold. -/
def scanRows {α : Type} (simFn : α → ℚ) (rows : List (StoredFactEmbedding α))
    (threshold : ℚ) : List (String × String × ℚ) :=
  (rows.map (fun r => (r.fact_id, r.dossier_id, simFn r.embedding))).filter
    (fun t => decide (threshold ≤ t.2.2))

/-- Stable insert for the descending sort: an element moves past only
strictly greater scores, so it lands before any equal-scored element already
present. -/
def insertDescBy (x : String × String × ℚ) :
    List (String × String × ℚ) → List (String × String × ℚ)
  | [] => [x]
  | y :: ys => if x.2.2 < y.2.2 then y :: insertDescBy x ys else x :: y :: ys

/-- Stable descending sort by score, extensionally equal to
`results.sort(key=lambda x: x[2], reverse=True)`. -/
def sortDescBy : List (String × String × ℚ) → List (String × String × ℚ)
  | [] => []
  | x :: xs => insertDescBy x (sortDescBy xs)

/-- Embedding of `search_similar_facts` (lines 105-170): scan and filter by
threshold, stable-sort descending by score, truncate to `top_k`. -/
def search_similar_facts {α : Type} (simFn : α → ℚ)
    (rows : List (StoredFactEmbedding α)) (top_k : Nat) (threshold : ℚ) :
    List (String × String × ℚ) :=
  (sortDescBy (scanRows simFn rows threshold)).take top_k

/-! ## Embedding-text selection in the engine
(src/hmlr/core/conversation_engine.py, lines 533-565)

Inside `log_conversation_turn` the texts handed to
`embedding_storage.save_turn_embeddings` are computed from the user message
only: `turn_text = user_msg`, the chunk engine splits `turn_text`, and the
`text_verbatim` of the sentence-level chunks (or the whole user message when
no chunk engine is available) is embedded.  The chunk engine is external to
src/ and is abstracted as a function from (text, turn_id) to chunks. -/

/-- Chunk record as consumed by the engine (fields read at lines 437-443 and
549-551). -/
structure EngineChunk where
  chunk_id : String
  chunk_type : String
  text_verbatim : String
  parent_chunk_id : Option String
  token_count : Nat

/-- Texts passed to `save_turn_embeddings` by `log_conversation_turn`
(lines 537-559).  The function receives the assistant message exactly as the
source does; the claim is that the result does not depend on it. -/
def turnEmbeddingTexts (chunk_engine : Option (String → String → List EngineChunk))
    (turn_id user_msg assistant_msg : String) : List String :=
  let turn_text := user_msg
  match chunk_engine with
  | some ce =>
      ((ce turn_text turn_id).filter (fun c => c.chunk_type == "sentence")).map
        (fun c => c.text_verbatim)
  | none => [turn_text]

/-- State of the embeddings store: one entry per `save_turn_embeddings`
call. -/
structure EmbeddingStore where
  entries : List (String × List String)

/-- Effect of `log_conversation_turn` on the embeddings store: one
`save_turn_embeddings(turn_id, text_chunks)` call (line 559). -/
def logTurnEmbeddingEffect (chunk_engine : Option (String → String → List EngineChunk))
    (store : EmbeddingStore) (turn_id user_msg assistant_msg : String) : EmbeddingStore :=
  ⟨store.entries ++ [(turn_id, turnEmbeddingTexts chunk_engine turn_id user_msg assistant_msg)]⟩

/-! ## Large-text extraction chunker
(src/tests/test_large_text_chunking.py, lines 19-99)

`chunk_large_text_for_extraction(text)` with the default parameters
`chunk_size_tokens=10000`, `overlap_tokens=500` (so
`chunk_size_chars = 40000`, `overlap_chars = 2000`;
`heuristic_tokens` is never read by the body).  A text of at most 10,000
estimated tokens is returned as a single window; otherwise a loop cuts
windows of up to 40,000 characters, moves each interior cut back to the last
sentence punctuation found in the 500 characters before the target cut
(`str.rfind` over `[search_start, end_char)`, used only when strictly past
`search_start`), and starts the next window 2,000 characters before the
previous cut. -/

/-- Window record produced by the chunker (the Python dict). -/
structure ExtractionChunk where
  text : List Char
  start_char : Nat
  end_char : Nat
  chunk_index : Nat
  total_chunks : Option Nat
deriving DecidableEq

/-- Python slice `text[s:e]` on a character list. -/
def pySlice (text : List Char) (s e : Nat) : List Char :=
  (text.take e).drop s

/-- Helper for `rfind`: scan positions `i + n - 1, …, i` downward and return
the first (that is, highest) position holding `c`, or `-1`. -/
def rfindAux (text : List Char) (c : Char) (i : Nat) : Nat → Int
  | 0 => -1
  | n + 1 => if text.getD (i + n) ' ' = c then ((i + n : Nat) : Int) else rfindAux text c i n

/-- Embedding of Python `text.rfind(c, i, j)`: the highest position in
`[i, j)` holding `c`, or `-1` when there is none. -/
def rfind (text : List Char) (c : Char) (i j : Nat) : Int :=
  rfindAux text c i (j - i)

/-- Boundary search of the loop body (lines 66-72): the values of
`last_period`, `last_exclaim`, `last_question` joined by `max` (Python `-1`
codes absence, so the join picks the highest position in `[i, j)` holding
any of the three characters, or `-1`). -/
def sentence_boundary (text : List Char) (i j : Nat) : Int :=
  max (max (rfind text '.' i j) (rfind text '!' i j)) (rfind text '?' i j)

/-- Cut computation of one loop iteration (lines 62-74) at the default
parameters: the target cut is `min(start_char + 40000, len(text))`, moved
back to just after the last sentence punctuation found strictly inside the
500-character lookback window when the cut is interior. -/
def cutPoint (text : List Char) (start_char : Nat) : Nat :=
  let end0 := min (start_char + 40000) text.length
  if end0 < text.length then
    let search_start := max (end0 - 500) start_char
    let boundary := sentence_boundary text search_start end0
    if boundary > (search_start : Int) then boundary.toNat + 1 else end0
  else end0

/-- Loop body of `chunk_large_text_for_extraction` (lines 61-92) at the
default parameters: `chunk_size_chars = 40000`, `overlap_chars = 2000`.
Structural recursion on a fuel argument; `text.length + 1` fuel is more than
enough because every iteration advances `start_char` by at least one. -/
def chunkLoop (text : List Char) : Nat → Nat → Nat → List ExtractionChunk
  | 0, _, _ => []
  | fuel + 1, start_char, chunk_index =>
    if start_char < text.length then
      let end_char := cutPoint text start_char
      let chunk : ExtractionChunk :=
        { text := pySlice text start_char end_char
          start_char := start_char
          end_char := end_char
          chunk_index := chunk_index
          total_chunks := none }
      if text.length ≤ end_char then
        [chunk]
      else
        chunk :: chunkLoop text fuel (end_char - 2000) (chunk_index + 1)
    else []

/-- Embedding of `chunk_large_text_for_extraction` (lines 19-99) at the
default parameters.  Small texts come back as a single window carrying the
whole input; large texts run the loop, after which `total_chunks` is filled
in on every window. -/
def chunk_large_text_for_extraction (text : List Char) : List ExtractionChunk :=
  if estimate_tokens text ≤ 10000 then
    [{ text := text
       start_char := 0
       end_char := text.length
       chunk_index := 0
       total_chunks := some 1 }]
  else
    let chunks := chunkLoop text (text.length + 1) 0 0
    chunks.map (fun c => { c with total_chunks := some chunks.length })

/-- Sentence-ending punctuation searched by the chunker. -/
def isSentenceEnd (c : Char) : Bool :=
  c == '.' || c == '!' || c == '?'

/-! ## Conversation engine (src/hmlr/core/conversation_engine.py)

The engine method `_handle_chat` is embedded as a function of the outcomes
of its external calls (Governor, main LLM, storage writes) and of the
bridge-block ledger state.  `DailyStorage` itself is not under src/ (only
the engine that calls it is), so its operations are modelled from the
specification; every such definition is marked.  Identifiers handed to the
ledger are strings; the ledger state carries a counter for minting block
identifiers. -/

/-- Status values of `ConversationResponse` as used by the engine
(`ResponseStatus.SUCCESS`, `PARTIAL`, `ERROR`). -/
inductive ResponseStatus where
  | SUCCESS
  | PARTIAL
  | ERROR
deriving DecidableEq

/-- Exceptions of src/hmlr/core/exceptions.py that the engine handles or
raises, plus a catch-all for any other exception. -/
inductive EngineExn where
  | retrievalError
  | apiConnectionError
  | storageWriteError
  | otherError
deriving DecidableEq

/-- Bridge-block status.  Modelled from the spec: block status ranges over
ACTIVE, PAUSED, CLOSED (§3, §4.4); the `daily_ledger` rows are not under
src/. -/
inductive BlockStatus where
  | ACTIVE
  | PAUSED
  | CLOSED
deriving DecidableEq

/-- Bridge-block row of the `daily_ledger`.  Modelled from the spec (§3,
§6): `block_id`, `day_id`, `topic_label`, `status`; remaining columns are
not consulted by any claim. -/
structure Block where
  block_id : String
  day_id : String
  topic_label : String
  status : BlockStatus
deriving DecidableEq

/-- Bridge-block ledger state: the block rows plus a counter used to mint
fresh block identifiers. -/
structure Ledger where
  blocks : List Block
  nextId : Nat
deriving DecidableEq

/-- Modelled from the spec: `DailyStorage.get_active_bridge_blocks` is not
under src/; per §4.4 the ledger is scoped to a day and the engine expects
the ACTIVE blocks of the current day (conversation_engine.py line 270 and
the comment on line 269). -/
def get_active_bridge_blocks (s : Ledger) (day_id : String) : List Block :=
  s.blocks.filter (fun b => b.day_id == day_id && b.status == BlockStatus.ACTIVE)

/-- Modelled from the spec: `DailyStorage.update_bridge_block_status` is not
under src/; it sets the status of the identified block (§4.4 transitions,
used by the engine at lines 293, 297, 325). -/
def update_bridge_block_status (s : Ledger) (block_id : String)
    (status : BlockStatus) : Ledger :=
  { s with
    blocks := s.blocks.map (fun b =>
      if b.block_id == block_id then { b with status := status } else b) }

/-- Modelled from the spec: `DailyStorage.generate_block_summary` is not
under src/; per §4.4 it produces the header summary of the block via the LLM
and does not change any block status, which is all the claims consult. -/
def generate_block_summary (s : Ledger) (block_id : String) : Ledger :=
  s

/-- Modelled from the spec: `DailyStorage.create_new_bridge_block` is not
under src/; per §4.4 it creates a new ACTIVE block for the day and
"creating a new active block while one exists forces the prior one to
PAUSED".  Returns the new ledger and the minted block id. -/
def create_new_bridge_block (s : Ledger) (day_id topic_label : String) :
    Ledger × String :=
  let bid := "block_" ++ toString s.nextId
  let demoted := s.blocks.map (fun b =>
    if b.day_id == day_id && b.status == BlockStatus.ACTIVE then
      { b with status := BlockStatus.PAUSED }
    else b)
  (⟨demoted ++ [⟨bid, day_id, topic_label, BlockStatus.ACTIVE⟩], s.nextId + 1⟩, bid)

/-- Routing decision returned by the Governor (conversation_engine.py lines
251 and 265-267). -/
structure RoutingDecision where
  matched_block_id : Option String
  is_new_topic : Bool
  suggested_label : String
deriving DecidableEq

/-- Python truthiness of `matched_block_id`: `None` and the empty string are
falsy (line 278 tests `if matched_block_id and …`). -/
def truthyId : Option String → Option String
  | none => none
  | some s => if s == "" then none else some s

/-- Embedding of the routing execution of `_handle_chat` (lines 261-349).
The five branches are, in source order: Topic Continuation, Topic
Resumption, New Topic Creation, Topic Shift to New, and the defensive
fallback.  Returns the updated ledger, the block id for the turn, and the
`is_new_topic` flag. -/
def executeRouting (s : Ledger) (day_id : String) (rd : RoutingDecision)
    (keywords : List String) : Ledger × String × Bool :=
  let last_active := (get_active_bridge_blocks s day_id).head?
  match truthyId rd.matched_block_id, last_active with
  | some mid, some act =>
    if mid == act.block_id then
      (s, mid, false)
    else if !rd.is_new_topic then
      let s1 := generate_block_summary
        (update_bridge_block_status s act.block_id BlockStatus.PAUSED) act.block_id
      (update_bridge_block_status s1 mid BlockStatus.ACTIVE, mid, false)
    else
      let s1 := generate_block_summary
        (update_bridge_block_status s act.block_id BlockStatus.PAUSED) act.block_id
      let res := create_new_bridge_block s1 day_id rd.suggested_label
      (res.1, res.2, true)
  | some mid, none =>
    if !rd.is_new_topic then
      (update_bridge_block_status s mid BlockStatus.ACTIVE, mid, false)
    else
      let res := create_new_bridge_block s day_id rd.suggested_label
      (res.1, res.2, true)
  | none, some act =>
    if rd.is_new_topic then
      let s1 := generate_block_summary
        (update_bridge_block_status s act.block_id BlockStatus.PAUSED) act.block_id
      let res := create_new_bridge_block s1 day_id rd.suggested_label
      (res.1, res.2, true)
    else
      let res := create_new_bridge_block s day_id rd.suggested_label
      (res.1, res.2, true)
  | none, none =>
    let res := create_new_bridge_block s day_id rd.suggested_label
    (res.1, res.2, true)

/-- Number of ACTIVE blocks of a day in the ledger. -/
def activeCount (s : Ledger) (day_id : String) : Nat :=
  (s.blocks.filter (fun b => b.day_id == day_id && b.status == BlockStatus.ACTIVE)).length

/-- Result quadruple of `Governor.govern` (line 247). -/
structure GovResult where
  routing : RoutingDecision
  memories : List String
  facts : List String
  dossiers : List String
deriving DecidableEq

/-- Default Governor result installed when `govern` raises `RetrievalError`
(lines 248-254). -/
def defaultGovResult : GovResult :=
  { routing := { matched_block_id := none
                 is_new_topic := true
                 suggested_label := "General Discussion" }
    memories := []
    facts := []
    dossiers := [] }

/-- Embedding of the try/except around the `govern` call (lines 246-254):
only `RetrievalError` is caught and replaced by the defaults; any other
exception propagates. -/
def resolveGovern : Except EngineExn GovResult → Except EngineExn GovResult
  | .error .retrievalError => .ok defaultGovResult
  | r => r

/-- User-visible response; the fields consulted by the claims. -/
structure ConversationResponse where
  response_text : String
  status : ResponseStatus
  contexts_retrieved : Nat
deriving DecidableEq

/-- Outcomes of the external calls made during one `_handle_chat` turn.
`governResult` is the outcome of `Governor.govern`; `llmResult` the main
LLM call (line 396); `appendResult` the `append_turn_to_block` call (line
446), which per the engine returns a boolean and may also raise;
`logTurnResult` the `log_conversation_turn` call (line 460), which raises
`StorageWriteError` on persistence failure (line 577). -/
structure HandleChatEnv where
  apiAvailable : Bool
  governResult : Except EngineExn GovResult
  llmResult : Except EngineExn String
  appendResult : Except EngineExn Bool
  logTurnResult : Except EngineExn Unit

/-- Body of the try block of `_handle_chat` (lines 192-471): resolve the
Governor outcome, execute the routing scenario, call the main LLM, append
the turn (the boolean result is only logged, line 447-451), log the turn,
and return a SUCCESS response with `contexts_retrieved` set to the number of
filtered memories (line 467).  Metadata parsing and the prompt text do not
affect any claimed observable and are not tracked. -/
def handleChatBody (env : HandleChatEnv) (s : Ledger) (day_id : String) :
    Except EngineExn ConversationResponse := do
  let gov ← resolveGovern env.governResult
  let _routed := executeRouting s day_id gov.routing []
  let response_text ← env.llmResult
  let _append_ok ← env.appendResult
  let _ ← env.logTurnResult
  pure { response_text := response_text
         status := ResponseStatus.SUCCESS
         contexts_retrieved := gov.memories.length }

/-- Embedding of `_handle_chat` (lines 165-497): the early PARTIAL return
when no API client is available (lines 184-190), the try body, and the two
exception handlers (lines 473-497), both of which return an ERROR
response. -/
def handleChat (env : HandleChatEnv) (s : Ledger) (day_id : String) :
    ConversationResponse :=
  if !env.apiAvailable then
    { response_text := "I am here to chat! (External API not available)"
      status := ResponseStatus.PARTIAL
      contexts_retrieved := 0 }
  else
    match handleChatBody env s day_id with
    | .ok r => r
    | .error .apiConnectionError =>
      { response_text := "I apologize, but I am having trouble connecting to my brain right now. Please try again in a moment."
        status := ResponseStatus.ERROR
        contexts_retrieved := 0 }
    | .error _ =>
      { response_text := "I am here to chat, but I am having trouble connecting to my chat system right now."
        status := ResponseStatus.ERROR
        contexts_retrieved := 0 }

/-! ## Helper lemmas -/

theorem deserializeTurns_none {α : Type} : ∀ (l : List (Option α)), none ∈ l →
    deserializeTurns l = none := by
  intro l h
  induction l with
  | nil => cases h
  | cons x xs ih =>
    cases x with
    | none => rfl
    | some v =>
      rcases List.mem_cons.mp h with h1 | h2
      · exact Option.noConfusion h1
      · rw [deserializeTurns, ih h2]

theorem save_preserves_nodup {α : Type} (t : List (StoredFactEmbedding α))
    (fid did : String) (e : α) (h : (t.map (fun r => r.fact_id)).Nodup) :
    ((save_fact_embedding t fid did e).map (fun r => r.fact_id)).Nodup := by
  unfold save_fact_embedding
  rw [List.map_append, List.nodup_append]
  refine ⟨h.sublist ((List.filter_sublist t).map _), by simp, ?_⟩
  intro x hx
  simp only [List.mem_map, List.mem_filter] at hx
  obtain ⟨r, ⟨_, hr⟩, rfl⟩ := hx
  simp only [Bool.not_eq_true', beq_eq_false_iff_ne, ne_eq] at hr
  simp [hr]

theorem delete_preserves_nodup {α : Type} (t : List (StoredFactEmbedding α))
    (did : String) (h : (t.map (fun r => r.fact_id)).Nodup) :
    ((delete_dossier_embeddings t did).map (fun r => r.fact_id)).Nodup :=
  h.sublist ((List.filter_sublist t).map _)

theorem runEmbeddingOps_nodup {α : Type} :
    ∀ (ops : List (EmbeddingOp α)) (t : List (StoredFactEmbedding α)),
      (t.map (fun r => r.fact_id)).Nodup →
      ((runEmbeddingOps t ops).map (fun r => r.fact_id)).Nodup := by
  intro ops
  induction ops with
  | nil => intro t h; exact h
  | cons op ops ih =>
    intro t h
    show ((runEmbeddingOps (applyEmbeddingOp t op) ops).map _).Nodup
    apply ih
    cases op with
    | save fid did e => exact save_preserves_nodup t fid did e h
    | deleteDossier did => exact delete_preserves_nodup t did h

theorem filter_ne_fact_id_length {α : Type} :
    ∀ (t : List (StoredFactEmbedding α)) (fid : String),
      (t.map (fun r => r.fact_id)).Nodup → (∃ r ∈ t, r.fact_id = fid) →
      (t.filter (fun r => !(r.fact_id == fid))).length + 1 = t.length := by
  intro t fid
  induction t with
  | nil => intro _ h; obtain ⟨r, hr, _⟩ := h; cases hr
  | cons x xs ih =>
    intro hnd hex
    rw [List.map_cons, List.nodup_cons] at hnd
    obtain ⟨hx_notin, hnd_xs⟩ := hnd
    obtain ⟨r, hr, hrf⟩ := hex
    rcases List.mem_cons.mp hr with h1 | h2
    · subst h1
      rw [List.filter_cons_of_neg (by simp [hrf])]
      have hall : ∀ y ∈ xs, (!(y.fact_id == fid)) = true := by
        intro y hy
        simp only [Bool.not_eq_true', beq_eq_false_iff_ne, ne_eq]
        intro hyf
        exact hx_notin (by
          rw [hrf, ← hyf]
          exact List.mem_map.mpr ⟨y, hy, rfl⟩)
      rw [List.filter_eq_self.mpr hall]
      simp
    · have hx_ne : x.fact_id ≠ fid := by
        intro hxf
        exact hx_notin (by
          rw [hxf, ← hrf]
          exact List.mem_map.mpr ⟨r, h2, rfl⟩)
      rw [List.filter_cons_of_pos (by simp [hx_ne])]
      have := ih hnd_xs ⟨r, h2, hrf⟩
      simp only [List.length_cons]
      omega

theorem save_filter_eq {α : Type} (t : List (StoredFactEmbedding α))
    (fid did : String) (e : α) :
    (save_fact_embedding t fid did e).filter (fun r => r.fact_id == fid) =
      [⟨fid, did, e⟩] := by
  unfold save_fact_embedding
  rw [List.filter_append]
  have h1 : (t.filter (fun r => !(r.fact_id == fid))).filter
      (fun r => r.fact_id == fid) = [] := by
    rw [List.filter_eq_nil_iff]
    intro r hr
    have := (List.mem_filter.mp hr).2
    simp only [Bool.not_eq_true', beq_eq_false_iff_ne, ne_eq] at this
    simp [this]
  rw [h1]
  simp

theorem mem_insertDescBy {x z : String × String × ℚ} :
    ∀ {l : List (String × String × ℚ)}, z ∈ insertDescBy x l → z = x ∨ z ∈ l := by
  intro l
  induction l with
  | nil =>
    intro h
    simp only [insertDescBy, List.mem_singleton] at h
    exact Or.inl h
  | cons y ys ih =>
    intro h
    simp only [insertDescBy] at h
    by_cases hc : x.2.2 < y.2.2
    · rw [if_pos hc] at h
      rcases List.mem_cons.mp h with h1 | h2
      · exact Or.inr (h1 ▸ List.mem_cons_self y ys)
      · rcases ih h2 with h3 | h4
        · exact Or.inl h3
        · exact Or.inr (List.mem_cons_of_mem y h4)
    · rw [if_neg hc] at h
      rcases List.mem_cons.mp h with h1 | h2
      · exact Or.inl h1
      · exact Or.inr h2

theorem insertDescBy_pairwise (x : String × String × ℚ) :
    ∀ {l : List (String × String × ℚ)},
      l.Pairwise (fun a b => b.2.2 ≤ a.2.2) →
      (insertDescBy x l).Pairwise (fun a b => b.2.2 ≤ a.2.2) := by
  intro l
  induction l with
  | nil =>
    intro _
    simp [insertDescBy]
  | cons y ys ih =>
    intro h
    rw [List.pairwise_cons] at h
    simp only [insertDescBy]
    by_cases hc : x.2.2 < y.2.2
    · rw [if_pos hc, List.pairwise_cons]
      refine ⟨?_, ih h.2⟩
      intro b hb
      rcases mem_insertDescBy hb with h1 | h2
      · exact h1 ▸ le_of_lt hc
      · exact h.1 b h2
    · rw [if_neg hc, List.pairwise_cons]
      refine ⟨?_, List.pairwise_cons.mpr h⟩
      intro b hb
      rcases List.mem_cons.mp hb with h1 | h2
      · exact h1 ▸ le_of_not_lt hc
      · exact le_trans (h.1 b h2) (le_of_not_lt hc)

theorem sortDescBy_pairwise :
    ∀ l : List (String × String × ℚ),
      (sortDescBy l).Pairwise (fun a b => b.2.2 ≤ a.2.2) := by
  intro l
  induction l with
  | nil => exact List.Pairwise.nil
  | cons x xs ih => exact insertDescBy_pairwise x ih

theorem mem_sortDescBy {z : String × String × ℚ} :
    ∀ {l : List (String × String × ℚ)}, z ∈ sortDescBy l → z ∈ l := by
  intro l
  induction l with
  | nil => intro h; exact absurd h (List.not_mem_nil z)
  | cons x xs ih =>
    intro h
    rcases mem_insertDescBy h with h1 | h2
    · exact h1 ▸ List.mem_cons_self x xs
    · exact List.mem_cons_of_mem x (ih h2)

theorem filter_insertDescBy (s : ℚ) (x : String × String × ℚ) :
    ∀ l : List (String × String × ℚ),
      (insertDescBy x l).filter (fun t => decide (t.2.2 = s)) =
        ((x :: l).filter (fun t => decide (t.2.2 = s))) := by
  intro l
  induction l with
  | nil => rfl
  | cons y ys ih =>
    simp only [insertDescBy]
    by_cases hc : x.2.2 < y.2.2
    · rw [if_pos hc]
      by_cases hx : x.2.2 = s <;> by_cases hy : y.2.2 = s
      · exact absurd hc (by rw [hx, hy]; exact lt_irrefl s)
      · simp only [List.filter_cons, ih]
        simp [hx, hy]
      · simp only [List.filter_cons, ih]
        simp [hx, hy]
      · simp only [List.filter_cons, ih]
        simp [hx, hy]
    · rw [if_neg hc]

theorem filter_sortDescBy (s : ℚ) :
    ∀ l : List (String × String × ℚ),
      (sortDescBy l).filter (fun t => decide (t.2.2 = s)) =
        l.filter (fun t => decide (t.2.2 = s)) := by
  intro l
  induction l with
  | nil => rfl
  | cons x xs ih =>
    show (insertDescBy x (sortDescBy xs)).filter _ = _
    rw [filter_insertDescBy, List.filter_cons, List.filter_cons, ih]

theorem length_filter_map_le {β : Type} (l : List β) (f : β → β) (p : β → Bool)
    (h : ∀ b ∈ l, p (f b) = true → p b = true) :
    ((l.map f).filter p).length ≤ (l.filter p).length := by
  induction l with
  | nil => simp
  | cons b bs ih =>
    have htail := ih (fun x hx => h x (List.mem_cons_of_mem b hx))
    simp only [List.map_cons, List.filter_cons]
    by_cases hfb : p (f b) = true
    · rw [if_pos hfb, if_pos (h b (List.mem_cons_self b bs) hfb)]
      simpa using htail
    · rw [if_neg hfb]
      by_cases hpb : p b = true
      · rw [if_pos hpb]
        exact le_trans htail (Nat.le_succ _)
      · rw [if_neg hpb]
        exact htail

theorem update_status_ids (s : Ledger) (bid : String) (st : BlockStatus) :
    (update_bridge_block_status s bid st).blocks.map (fun b => b.block_id) =
      s.blocks.map (fun b => b.block_id) := by
  unfold update_bridge_block_status
  simp only [List.map_map]
  apply List.map_congr_left
  intro b _
  by_cases hb : (b.block_id == bid) = true <;> simp [Function.comp, hb]

theorem activeCount_pause_head (s : Ledger) (day_id : String) (act : Block)
    (hhead : (get_active_bridge_blocks s day_id).head? = some act)
    (hle : activeCount s day_id ≤ 1) :
    activeCount (update_bridge_block_status s act.block_id BlockStatus.PAUSED) day_id
      = 0 := by
  have hfl : s.blocks.filter
      (fun b => b.day_id == day_id && b.status == BlockStatus.ACTIVE) = [act] := by
    unfold get_active_bridge_blocks at hhead
    unfold activeCount at hle
    cases hf : s.blocks.filter
        (fun b => b.day_id == day_id && b.status == BlockStatus.ACTIVE) with
    | nil =>
      rw [hf] at hhead
      exact absurd hhead (by simp)
    | cons a rest =>
      rw [hf] at hhead hle
      simp only [List.head?_cons, Option.some.injEq] at hhead
      have hr : rest = [] := by
        simp only [List.length_cons] at hle
        exact List.eq_nil_of_length_eq_zero (by omega)
      rw [hhead, hr]
  have honly : ∀ b ∈ s.blocks,
      (b.day_id == day_id && b.status == BlockStatus.ACTIVE) = true → b = act := by
    intro b hb hp
    have : b ∈ s.blocks.filter
        (fun b => b.day_id == day_id && b.status == BlockStatus.ACTIVE) :=
      List.mem_filter.mpr ⟨hb, hp⟩
    rw [hfl] at this
    exact List.mem_singleton.mp this
  unfold activeCount update_bridge_block_status
  simp only
  rw [List.length_eq_zero, List.filter_eq_nil_iff]
  intro x hx
  obtain ⟨b, hb, rfl⟩ := List.mem_map.mp hx
  by_cases hbid : (b.block_id == act.block_id) = true
  · rw [if_pos hbid]
    simp
  · rw [if_neg hbid]
    intro hp
    exact hbid (by rw [honly b hb hp]; simp)

theorem activeCount_activate_aux (day_id mid : String) :
    ∀ l : List Block, (l.map (fun b => b.block_id)).Nodup →
      (∀ b ∈ l, (b.day_id == day_id && b.status == BlockStatus.ACTIVE) = false) →
      ((l.map (fun b => if b.block_id == mid
            then { b with status := BlockStatus.ACTIVE } else b)).filter
          (fun b => b.day_id == day_id && b.status == BlockStatus.ACTIVE)).length ≤ 1 := by
  intro l
  induction l with
  | nil => simp
  | cons b bs ih =>
    intro hnd hall
    rw [List.map_cons, List.nodup_cons] at hnd
    simp only [List.map_cons, List.filter_cons]
    by_cases hb : (b.block_id == mid) = true
    · have hrest : ((bs.map (fun b => if b.block_id == mid
            then { b with status := BlockStatus.ACTIVE } else b)).filter
          (fun b => b.day_id == day_id && b.status == BlockStatus.ACTIVE)) = [] := by
        rw [List.filter_eq_nil_iff]
        intro x hx
        obtain ⟨c, hc, rfl⟩ := List.mem_map.mp hx
        by_cases hcm : (c.block_id == mid) = true
        · exfalso
          apply hnd.1
          have hbc : b.block_id = c.block_id := by
            rw [eq_of_beq hb, eq_of_beq hcm]
          rw [hbc]
          exact List.mem_map.mpr ⟨c, hc, rfl⟩
        · rw [if_neg hcm]
          exact fun hp => absurd (hall c (List.mem_cons_of_mem b hc)) (by rw [hp]; simp)
      by_cases hpfb : ((if b.block_id == mid
            then { b with status := BlockStatus.ACTIVE } else b).day_id == day_id &&
          (if b.block_id == mid
            then { b with status := BlockStatus.ACTIVE } else b).status
            == BlockStatus.ACTIVE) = true
      · rw [if_pos hpfb, hrest]
        simp
      · rw [if_neg hpfb, hrest]
        simp
    · rw [if_neg hb]
      have hpb := hall b (List.mem_cons_self b bs)
      rw [if_neg (by rw [hpb]; simp)]
      exact ih hnd.2 (fun c hc => hall c (List.mem_cons_of_mem b hc))

theorem activeCount_activate_le_one (s : Ledger) (day_id mid : String)
    (hnd : (s.blocks.map (fun b => b.block_id)).Nodup)
    (h0 : activeCount s day_id = 0) :
    activeCount (update_bridge_block_status s mid BlockStatus.ACTIVE) day_id ≤ 1 := by
  have hall : ∀ b ∈ s.blocks,
      (b.day_id == day_id && b.status == BlockStatus.ACTIVE) = false := by
    intro b hb
    by_contra hcon
    have hp : (b.day_id == day_id && b.status == BlockStatus.ACTIVE) = true := by
      revert hcon
      cases (b.day_id == day_id && b.status == BlockStatus.ACTIVE) <;> simp
    have hmem : b ∈ s.blocks.filter
        (fun b => b.day_id == day_id && b.status == BlockStatus.ACTIVE) :=
      List.mem_filter.mpr ⟨hb, hp⟩
    unfold activeCount at h0
    rw [List.length_eq_zero] at h0
    rw [h0] at hmem
    exact absurd hmem (List.not_mem_nil b)
  exact activeCount_activate_aux day_id mid s.blocks hnd hall

theorem activeCount_create (s : Ledger) (day_id label : String) :
    activeCount (create_new_bridge_block s day_id label).1 day_id = 1 := by
  unfold activeCount create_new_bridge_block
  simp only
  rw [List.filter_append]
  have h1 : ((s.blocks.map (fun b =>
        if b.day_id == day_id && b.status == BlockStatus.ACTIVE
        then { b with status := BlockStatus.PAUSED } else b)).filter
      (fun b => b.day_id == day_id && b.status == BlockStatus.ACTIVE)) = [] := by
    rw [List.filter_eq_nil_iff]
    intro x hx
    obtain ⟨c, hc, rfl⟩ := List.mem_map.mp hx
    by_cases hcp : (c.day_id == day_id && c.status == BlockStatus.ACTIVE) = true
    · rw [if_pos hcp]
      simp
    · rw [if_neg hcp]
      exact fun hp => hcp hp
  rw [h1]
  simp

theorem activeCount_of_head_none (s : Ledger) (day_id : String)
    (h : (get_active_bridge_blocks s day_id).head? = none) :
    activeCount s day_id = 0 := by
  unfold get_active_bridge_blocks at h
  unfold activeCount
  rw [List.head?_eq_none_iff] at h
  rw [h]
  rfl

theorem rfindAux_spec (text : List Char) (c : Char) (i : Nat) :
    ∀ n, rfindAux text c i n = -1 ∨
      ∃ k, k < n ∧ rfindAux text c i n = ((i + k : Nat) : Int) ∧
        text.getD (i + k) ' ' = c := by
  intro n
  induction n with
  | zero => exact Or.inl rfl
  | succ n ih =>
    by_cases h : text.getD (i + n) ' ' = c
    · exact Or.inr ⟨n, Nat.lt_succ_self n, by rw [rfindAux, if_pos h], h⟩
    · rw [rfindAux, if_neg h]
      rcases ih with h1 | ⟨k, hk, he, hc⟩
      · exact Or.inl h1
      · exact Or.inr ⟨k, Nat.lt_succ_of_lt hk, he, hc⟩

theorem rfindAux_ge (text : List Char) (c : Char) (i : Nat) :
    ∀ n k, k < n → text.getD (i + k) ' ' = c →
      ((i + k : Nat) : Int) ≤ rfindAux text c i n := by
  intro n
  induction n with
  | zero => intro k hk _; exact absurd hk (Nat.not_lt_zero k)
  | succ n ih =>
    intro k hk hc
    by_cases h : text.getD (i + n) ' ' = c
    · rw [rfindAux, if_pos h]
      have := Nat.add_le_add_left (Nat.le_of_lt_succ hk) i
      omega
    · rw [rfindAux, if_neg h]
      have hkn : k < n := by
        rcases Nat.lt_succ_iff_lt_or_eq.mp hk with h1 | h1
        · exact h1
        · exact absurd (h1 ▸ hc) h
      exact ih k hkn hc

theorem rfind_lt (text : List Char) (c : Char) (i j : Nat) (hij : i ≤ j) :
    rfind text c i j < (j : Int) := by
  rcases rfindAux_spec text c i (j - i) with h | ⟨k, hk, he, _⟩
  · rw [rfind, h]
    omega
  · rw [rfind, he]
    omega

theorem rfind_char (text : List Char) (c : Char) (i j : Nat)
    (h : 0 ≤ rfind text c i j) :
    text.getD (rfind text c i j).toNat ' ' = c ∧
    i ≤ (rfind text c i j).toNat ∧ (rfind text c i j).toNat < j := by
  rcases rfindAux_spec text c i (j - i) with h1 | ⟨k, hk, he, hc⟩
  · rw [rfind, h1] at h
    exact absurd h (by norm_num)
  · rw [rfind, he]
    refine ⟨?_, by omega, by omega⟩
    rw [show ((i + k : Nat) : Int).toNat = i + k from by omega]
    exact hc

theorem rfind_ge (text : List Char) (c : Char) (i j p : Nat)
    (hp1 : i ≤ p) (hp2 : p < j) (hc : text.getD p ' ' = c) :
    (p : Int) ≤ rfind text c i j := by
  have hp : p = i + (p - i) := by omega
  have hk : p - i < j - i := by omega
  have := rfindAux_ge text c i (j - i) (p - i) hk (by rw [← hp]; exact hc)
  rw [rfind]
  rw [← hp] at this
  exact this

theorem sentence_boundary_lt (text : List Char) (i j : Nat) (hij : i ≤ j) :
    sentence_boundary text i j < (j : Int) := by
  unfold sentence_boundary
  exact max_lt (max_lt (rfind_lt text '.' i j hij) (rfind_lt text '!' i j hij))
    (rfind_lt text '?' i j hij)

theorem isSentenceEnd_iff (c : Char) :
    isSentenceEnd c = true ↔ c = '.' ∨ c = '!' ∨ c = '?' := by
  unfold isSentenceEnd
  rw [Bool.or_eq_true, Bool.or_eq_true, beq_iff_eq, beq_iff_eq, beq_iff_eq]
  tauto

theorem sentence_boundary_ge (text : List Char) (i j p : Nat)
    (hp1 : i ≤ p) (hp2 : p < j)
    (hc : isSentenceEnd (text.getD p ' ') = true) :
    (p : Int) ≤ sentence_boundary text i j := by
  unfold sentence_boundary
  rcases (isSentenceEnd_iff _).mp hc with hc | hc | hc
  · exact le_trans (rfind_ge text '.' i j p hp1 hp2 hc)
      (le_trans (le_max_left _ _) (le_max_left _ _))
  · exact le_trans (rfind_ge text '!' i j p hp1 hp2 hc)
      (le_trans (le_max_right _ _) (le_max_left _ _))
  · exact le_trans (rfind_ge text '?' i j p hp1 hp2 hc) (le_max_right _ _)

theorem sentence_boundary_char (text : List Char) (i j : Nat)
    (h : 0 ≤ sentence_boundary text i j) :
    isSentenceEnd (text.getD (sentence_boundary text i j).toNat ' ') = true ∧
    i ≤ (sentence_boundary text i j).toNat ∧
    (sentence_boundary text i j).toNat < j := by
  have hcases : sentence_boundary text i j = rfind text '.' i j ∨
      sentence_boundary text i j = rfind text '!' i j ∨
      sentence_boundary text i j = rfind text '?' i j := by
    unfold sentence_boundary
    rcases max_choice (max (rfind text '.' i j) (rfind text '!' i j))
        (rfind text '?' i j) with h1 | h1
    · rcases max_choice (rfind text '.' i j) (rfind text '!' i j) with h2 | h2
      · exact Or.inl (h1.trans h2)
      · exact Or.inr (Or.inl (h1.trans h2))
    · exact Or.inr (Or.inr h1)
  rcases hcases with he | he | he <;> rw [he] at h ⊢
  · obtain ⟨hc, hi, hj⟩ := rfind_char text '.' i j h
    exact ⟨(isSentenceEnd_iff _).mpr (Or.inl hc), hi, hj⟩
  · obtain ⟨hc, hi, hj⟩ := rfind_char text '!' i j h
    exact ⟨(isSentenceEnd_iff _).mpr (Or.inr (Or.inl hc)), hi, hj⟩
  · obtain ⟨hc, hi, hj⟩ := rfind_char text '?' i j h
    exact ⟨(isSentenceEnd_iff _).mpr (Or.inr (Or.inr hc)), hi, hj⟩

theorem pySlice_length (text : List Char) (s e : Nat) :
    (pySlice text s e).length = min e text.length - s := by
  unfold pySlice
  rw [List.length_drop, List.length_take]

theorem cutPoint_big (text : List Char) (start : Nat)
    (hbig : start + 40000 < text.length) :
    start + 39502 ≤ cutPoint text start ∧ cutPoint text start ≤ start + 40000 ∧
    (∀ p, start + 39500 < p → p < start + 40000 →
      isSentenceEnd (text.getD p ' ') = true →
      isSentenceEnd (text.getD (cutPoint text start - 1) ' ') = true) := by
  unfold cutPoint
  rw [min_eq_left (le_of_lt hbig)]
  rw [if_pos hbig]
  have hmax : max (start + 40000 - 500) start = start + 39500 := by
    omega
  rw [hmax]
  by_cases hb : sentence_boundary text (start + 39500) (start + 40000) >
      ((start + 39500 : Nat) : Int)
  · rw [if_pos hb]
    have h0 : (0 : Int) ≤ sentence_boundary text (start + 39500) (start + 40000) :=
      le_trans (Int.ofNat_nonneg _) (le_of_lt hb)
    obtain ⟨hch, hge, hlt⟩ :=
      sentence_boundary_char text (start + 39500) (start + 40000) h0
    have hgt : start + 39500 <
        (sentence_boundary text (start + 39500) (start + 40000)).toNat :=
      Int.lt_toNat.mpr hb
    refine ⟨by omega, by omega, ?_⟩
    intro p _ _ _
    simpa using hch
  · rw [if_neg hb]
    refine ⟨by omega, le_refl _, ?_⟩
    intro p hp1 hp2 hc
    exfalso
    apply hb
    exact lt_of_lt_of_le (Int.ofNat_lt.mpr hp1)
      (sentence_boundary_ge text (start + 39500) (start + 40000) p (by omega) hp2 hc)

theorem cutPoint_small (text : List Char) (start : Nat)
    (hsmall : text.length ≤ start + 40000) :
    cutPoint text start = text.length := by
  unfold cutPoint
  rw [min_eq_right hsmall, if_neg (lt_irrefl text.length)]

theorem cutPoint_bounds (text : List Char) (start : Nat)
    (hstart : start < text.length) :
    start < cutPoint text start ∧ cutPoint text start ≤ text.length := by
  by_cases hbig : start + 40000 < text.length
  · obtain ⟨h1, h2, _⟩ := cutPoint_big text start hbig
    exact ⟨by omega, by omega⟩
  · rw [cutPoint_small text start (by omega)]
    exact ⟨hstart, le_refl _⟩

theorem chunkLoop_succ_eq (text : List Char) (fuel start idx : Nat)
    (hs : start < text.length) :
    chunkLoop text (fuel + 1) start idx =
      if text.length ≤ cutPoint text start then
        [⟨pySlice text start (cutPoint text start), start, cutPoint text start,
          idx, none⟩]
      else
        ⟨pySlice text start (cutPoint text start), start, cutPoint text start,
          idx, none⟩ ::
          chunkLoop text fuel (cutPoint text start - 2000) (idx + 1) := by
  rw [chunkLoop, if_pos hs]

theorem chunkLoop_not_lt (text : List Char) (fuel start idx : Nat)
    (hs : ¬start < text.length) :
    chunkLoop text (fuel + 1) start idx = [] := by
  rw [chunkLoop, if_neg hs]

theorem chunkLoop_head_start (text : List Char) :
    ∀ (fuel start idx : Nat) (c : ExtractionChunk),
      (chunkLoop text fuel start idx).head? = some c → c.start_char = start := by
  intro fuel start idx c h
  cases fuel with
  | zero => exact Option.noConfusion h
  | succ fuel =>
    by_cases hs : start < text.length
    · rw [chunkLoop_succ_eq text fuel start idx hs] at h
      by_cases hend : text.length ≤ cutPoint text start
      · rw [if_pos hend] at h
        rw [List.head?_cons, Option.some.injEq] at h
        rw [← h]
      · rw [if_neg hend] at h
        rw [List.head?_cons, Option.some.injEq] at h
        rw [← h]
    · rw [chunkLoop_not_lt text fuel start idx hs] at h
      exact Option.noConfusion h

theorem chunkLoop_mem_props (text : List Char) :
    ∀ (fuel start idx : Nat) (c : ExtractionChunk),
      c ∈ chunkLoop text fuel start idx →
      c.text = pySlice text c.start_char c.end_char ∧
      c.end_char ≤ text.length ∧
      c.end_char ≤ c.start_char + 40000 ∧
      c.start_char < c.end_char ∧
      (c.end_char < text.length →
        (c.start_char + 39502 ≤ c.end_char ∧
         c.start_char + 40000 < text.length ∧
         (∀ p, c.start_char + 39500 < p → p < c.start_char + 40000 →
            isSentenceEnd (text.getD p ' ') = true →
            isSentenceEnd (text.getD (c.end_char - 1) ' ') = true))) := by
  intro fuel
  induction fuel with
  | zero => intro start idx c h; exact absurd h (List.not_mem_nil c)
  | succ fuel ih =>
    intro start idx c h
    by_cases hs : start < text.length
    · rw [chunkLoop_succ_eq text fuel start idx hs] at h
      obtain ⟨hlt, hle⟩ := cutPoint_bounds text start hs
      by_cases hend : text.length ≤ cutPoint text start
      · rw [if_pos hend] at h
        have hc := List.mem_singleton.mp h
        subst hc
        dsimp only
        refine ⟨rfl, hle, ?_, hlt, ?_⟩
        · by_cases hbig : start + 40000 < text.length
          · exact (cutPoint_big text start hbig).2.1
          · rw [cutPoint_small text start (by omega)]
            omega
        · intro hclt
          exact absurd hclt (by omega)
      · rw [if_neg hend] at h
        rcases List.mem_cons.mp h with hc | hc
        · subst hc
          dsimp only
          have hbig : start + 40000 < text.length := by
            by_contra hnb
            rw [cutPoint_small text start (by omega)] at hend
            exact hend (le_refl _)
          obtain ⟨h1, h2, h3⟩ := cutPoint_big text start hbig
          exact ⟨rfl, hle, h2, hlt, fun _ => ⟨h1, hbig, h3⟩⟩
        · exact ih (cutPoint text start - 2000) (idx + 1) c hc
    · rw [chunkLoop_not_lt text fuel start idx hs] at h
      exact absurd h (List.not_mem_nil c)

theorem chunkLoop_chain (text : List Char) :
    ∀ (fuel start idx : Nat),
      List.Chain' (fun c1 c2 => c2.start_char + 2000 = c1.end_char ∧
          estimate_tokens (pySlice text c2.start_char c1.end_char) = 500)
        (chunkLoop text fuel start idx) := by
  intro fuel
  induction fuel with
  | zero => intro start idx; exact List.chain'_nil
  | succ fuel ih =>
    intro start idx
    by_cases hs : start < text.length
    · rw [chunkLoop_succ_eq text fuel start idx hs]
      by_cases hend : text.length ≤ cutPoint text start
      · rw [if_pos hend]
        exact List.chain'_singleton _
      · rw [if_neg hend]
        rw [List.chain'_cons']
        refine ⟨?_, ih _ _⟩
        intro b hb
        have hbs : b.start_char = cutPoint text start - 2000 :=
          chunkLoop_head_start text fuel _ _ b hb
        have hbig : start + 40000 < text.length := by
          by_contra hnb
          rw [cutPoint_small text start (by omega)] at hend
          exact hend (le_refl _)
        obtain ⟨h1, _, _⟩ := cutPoint_big text start hbig
        constructor
        · rw [hbs]
          show cutPoint text start - 2000 + 2000 = cutPoint text start
          omega
        · rw [hbs]
          show estimate_tokens
            (pySlice text (cutPoint text start - 2000) (cutPoint text start)) = 500
          unfold estimate_tokens
          rw [pySlice_length,
            min_eq_left (show cutPoint text start ≤ text.length by omega),
            show cutPoint text start - (cutPoint text start - 2000) = 2000 by omega]
    · rw [chunkLoop_not_lt text fuel start idx hs]
      exact List.chain'_nil

theorem chunkLoop_length_two (text : List Char) (hlen : text.length = 60000) :
    ∀ fuel : Nat, (chunkLoop text (fuel + 2) 0 0).length = 2 := by
  intro fuel
  have hs : 0 < text.length := by omega
  rw [show fuel + 2 = (fuel + 1) + 1 from rfl,
    chunkLoop_succ_eq text (fuel + 1) 0 0 hs]
  have hbig : 0 + 40000 < text.length := by omega
  obtain ⟨h1, h2, _⟩ := cutPoint_big text 0 hbig
  rw [if_neg (show ¬text.length ≤ cutPoint text 0 by omega)]
  rw [List.length_cons]
  have hs2 : cutPoint text 0 - 2000 < text.length := by omega
  rw [chunkLoop_succ_eq text fuel (cutPoint text 0 - 2000) 1 hs2]
  have hsmall2 : cutPoint text (cutPoint text 0 - 2000) = text.length :=
    cutPoint_small text _ (by omega)
  rw [if_pos (by rw [hsmall2])]
  rfl

/-! ## Claim theorems -/

/-- Claim C8, counterexample: on a five-character text the token estimate of
the chunking machinery is `5 / 4 = 1`, whereas `ceil(5 / 4) = 2`; the
estimate is a floor, not a ceiling. -/
theorem estimate_tokens_ceil_cex :
    estimate_tokens ['a', 'a', 'a', 'a', 'a'] = 1 ∧ (5 + 3) / 4 = 2 := by
  constructor
  · rfl
  · rfl

/-- Claim C8 (amended): for every text, the approximate token count used by
the chunking and extraction machinery equals `floor(len(text) / 4)`, that
is, it is the unique `k` with `4 * k ≤ len(text) < 4 * k + 4`. -/
theorem estimate_tokens_floor_bounds :
    ∀ text : List Char,
      4 * estimate_tokens text ≤ text.length ∧
      text.length < 4 * estimate_tokens text + 4 := by
  intro text
  unfold estimate_tokens
  have h := Nat.div_add_mod text.length 4
  have h2 : text.length % 4 < 4 := Nat.mod_lt _ (by norm_num)
  omega

/-- Claim C10: for every input, the module-level convenience function
`chunk_conversation` raises a `NameError` and never returns a list of
chunks, because the name `SemanticChunker` it instantiates is neither
defined nor imported in the module. -/
theorem chunk_conversation_always_nameError :
    ∀ (u a : String) (m : Nat),
      chunk_conversation u a m = .error (.nameError "SemanticChunker") ∧
      ∀ chunks : List String, chunk_conversation u a m ≠ .ok chunks := by
  intro u a m
  have h : chunk_conversation u a m = .error (.nameError "SemanticChunker") := by
    unfold chunk_conversation
    rw [if_neg (by decide)]
  refine ⟨h, ?_⟩
  intro chunks hc
  rw [h] at hc
  exact Except.noConfusion hc

/-- Witness for C10: the `NameError` observed at a concrete call. -/
theorem chunk_conversation_always_nameError_witness :
    chunk_conversation "hello" "world" 400 = .error (.nameError "SemanticChunker") :=
  (chunk_conversation_always_nameError "hello" "world" 400).1

/-- Claim C6: `load_window` returns the empty list when the file does not
exist; it raises the sliding-window `StateError` when the file exists but
its version field differs from "1"; and it raises the same `StateError`
when the file cannot be read, parsed, or deserialized into turns. -/
theorem load_window_contract :
    (∀ (α : Type), load_window (@WindowFileState.missing α) = .ok []) ∧
    (∀ (α : Type) (st : RawWindowState α), st.version ≠ some "1" →
      ∃ e, load_window (.parsed st) = .error e) ∧
    (∀ (α : Type), ∃ e, load_window (@WindowFileState.readFailure α) = .error e) ∧
    (∀ (α : Type), ∃ e, load_window (@WindowFileState.parseFailure α) = .error e) ∧
    (∀ (α : Type) (st : RawWindowState α), st.version = some "1" → none ∈ st.turns →
      ∃ e, load_window (.parsed st) = .error e) := by
  refine ⟨fun α => rfl, ?_, fun α => ⟨_, rfl⟩, fun α => ⟨_, rfl⟩, ?_⟩
  · intro α st hv
    refine ⟨⟨"Sliding window state version mismatch"⟩, ?_⟩
    show (if st.version ≠ some STATE_VERSION then _ else _) = _
    rw [if_pos (show st.version ≠ some STATE_VERSION from hv)]
  · intro α st hv ht
    refine ⟨⟨"Failed to deserialize sliding window state"⟩, ?_⟩
    show (if st.version ≠ some STATE_VERSION then _ else _) = _
    rw [if_neg (show ¬st.version ≠ some STATE_VERSION from fun h => h (by rw [hv]; rfl)),
      deserializeTurns_none st.turns ht]

/-- Witness for C6: the contract applied at concrete file states. -/
theorem load_window_contract_witness :
    (load_window (@WindowFileState.missing Nat) = .ok []) ∧
    (∃ e, load_window (WindowFileState.parsed (⟨some "2", []⟩ : RawWindowState Nat)) = .error e) ∧
    (∃ e, load_window (WindowFileState.parsed (⟨some "1", [none]⟩ : RawWindowState Nat)) = .error e) :=
  ⟨load_window_contract.1 Nat,
   load_window_contract.2.1 Nat ⟨some "2", []⟩ (by decide),
   load_window_contract.2.2.2.2 Nat ⟨some "1", [none]⟩ rfl (by simp)⟩

/-- Claim C7: after any sequence of `save_fact_embedding` and
`delete_dossier_embeddings` operations the `dossier_fact_embeddings` table
contains at most one row per `fact_id`; saving again for an already-stored
`fact_id` overwrites the existing row instead of adding a second one, and
`delete_dossier_embeddings` removes every row whose `dossier_id` matches. -/
theorem dossier_fact_embeddings_table_contract :
    (∀ (α : Type) (ops : List (EmbeddingOp α)),
      ((runEmbeddingOps [] ops).map (fun r => r.fact_id)).Nodup) ∧
    (∀ (α : Type) (t : List (StoredFactEmbedding α)) (fid did : String) (e : α),
      (t.map (fun r => r.fact_id)).Nodup → (∃ r ∈ t, r.fact_id = fid) →
      (save_fact_embedding t fid did e).length = t.length) ∧
    (∀ (α : Type) (t : List (StoredFactEmbedding α)) (fid did : String) (e : α),
      (save_fact_embedding t fid did e).filter (fun r => r.fact_id == fid) =
        [⟨fid, did, e⟩]) ∧
    (∀ (α : Type) (t : List (StoredFactEmbedding α)) (did : String)
      (r : StoredFactEmbedding α),
      r ∈ delete_dossier_embeddings t did → r.dossier_id ≠ did) := by
  refine ⟨?_, ?_, ?_, ?_⟩
  · intro α ops
    exact runEmbeddingOps_nodup ops [] (by simp)
  · intro α t fid did e hnd hex
    unfold save_fact_embedding
    rw [List.length_append]
    have := filter_ne_fact_id_length t fid hnd hex
    simp only [List.length_cons, List.length_nil]
    omega
  · intro α t fid did e
    exact save_filter_eq t fid did e
  · intro α t did r hr
    have := (List.mem_filter.mp hr).2
    simp only [Bool.not_eq_true', beq_eq_false_iff_ne, ne_eq] at this
    exact this

/-- Witness for C7: the contract applied to a concrete table and operation
sequence. -/
theorem dossier_fact_embeddings_table_contract_witness :
    ((runEmbeddingOps ([] : List (StoredFactEmbedding Nat))
        [.save "f1" "d1" 7, .save "f1" "d2" 8, .deleteDossier "d2"]).map
      (fun r => r.fact_id)).Nodup ∧
    (save_fact_embedding [(⟨"f1", "d1", 7⟩ : StoredFactEmbedding Nat)] "f1" "d2" 8).length
      = 1 :=
  ⟨dossier_fact_embeddings_table_contract.1 Nat
      [.save "f1" "d1" 7, .save "f1" "d2" 8, .deleteDossier "d2"],
   dossier_fact_embeddings_table_contract.2.1 Nat [⟨"f1", "d1", 7⟩] "f1" "d2" 8
      (by simp) ⟨⟨"f1", "d1", 7⟩, by simp, rfl⟩⟩

/-- Claim C4: for every stored set of fact embeddings, every query scoring,
every `top_k` and every threshold, `search_similar_facts` returns a list of
(fact_id, dossier_id, score) triples in which every score is at least the
threshold, scores are non-increasing, ties are broken by insertion order
with older rows first (for each score value, the returned rows of that score
are an initial segment, in order, of the scanned rows of that score), and
the list has at most `top_k` entries. -/
theorem search_similar_facts_contract :
    ∀ (α : Type) (simFn : α → ℚ) (rows : List (StoredFactEmbedding α))
      (top_k : Nat) (threshold : ℚ),
      (∀ t ∈ search_similar_facts simFn rows top_k threshold, threshold ≤ t.2.2) ∧
      (search_similar_facts simFn rows top_k threshold).Pairwise
        (fun a b => b.2.2 ≤ a.2.2) ∧
      (search_similar_facts simFn rows top_k threshold).length ≤ top_k ∧
      (∀ s : ℚ, ∃ suffix,
        (scanRows simFn rows threshold).filter (fun t => decide (t.2.2 = s)) =
          (search_similar_facts simFn rows top_k threshold).filter
            (fun t => decide (t.2.2 = s)) ++ suffix) := by
  intro α simFn rows top_k threshold
  refine ⟨?_, ?_, ?_, ?_⟩
  · intro t ht
    have h1 : t ∈ sortDescBy (scanRows simFn rows threshold) :=
      List.mem_of_mem_take ht
    have h2 : t ∈ scanRows simFn rows threshold := mem_sortDescBy h1
    have h3 := (List.mem_filter.mp h2).2
    exact of_decide_eq_true h3
  · exact List.Pairwise.sublist (List.take_sublist _ _) (sortDescBy_pairwise _)
  · rw [search_similar_facts, List.length_take]
    exact min_le_left _ _
  · intro s
    refine ⟨((sortDescBy (scanRows simFn rows threshold)).drop top_k).filter
      (fun t => decide (t.2.2 = s)), ?_⟩
    rw [← filter_sortDescBy s (scanRows simFn rows threshold)]
    conv_lhs => rw [← List.take_append_drop top_k
      (sortDescBy (scanRows simFn rows threshold))]
    rw [List.filter_append]
    rfl

/-- Witness for C4: the contract applied to a concrete table of three
embedded facts with scores 3, 5, 5 at threshold 4 and `top_k = 2`. -/
theorem search_similar_facts_contract_witness :
    (search_similar_facts (fun q : ℚ => q)
        [⟨"f1", "d1", 3⟩, ⟨"f2", "d2", 5⟩, ⟨"f3", "d1", 5⟩] 2 4).length ≤ 2 ∧
    (4 : ℚ) ≤ (("f2", "d2", (5 : ℚ)) : String × String × ℚ).2.2 :=
  ⟨(search_similar_facts_contract ℚ (fun q => q)
      [⟨"f1", "d1", 3⟩, ⟨"f2", "d2", 5⟩, ⟨"f3", "d1", 5⟩] 2 4).2.2.1,
   (search_similar_facts_contract ℚ (fun q => q)
      [⟨"f1", "d1", 3⟩, ⟨"f2", "d2", 5⟩, ⟨"f3", "d1", 5⟩] 2 4).1
      ("f2", "d2", (5 : ℚ)) (by decide)⟩

/-- Claim C3: a text of at most 10,000 estimated tokens is returned as one
window holding the whole input; every window holds at most 10,000 content
tokens; consecutive windows overlap by exactly 2,000 characters, which is
500 estimated tokens; an interior cut lands just after sentence punctuation
whenever sentence punctuation occurs strictly within the 500 characters
before the target cut `min(start_char + 40000, len(text))`; and a document
of 60,000 characters (about 15,000 tokens) yields exactly 2 windows. -/
theorem chunk_large_text_contract :
    (∀ text : List Char, estimate_tokens text ≤ 10000 →
      chunk_large_text_for_extraction text =
        [{ text := text
           start_char := 0
           end_char := text.length
           chunk_index := 0
           total_chunks := some 1 }]) ∧
    (∀ text : List Char, ∀ c ∈ chunk_large_text_for_extraction text,
      estimate_tokens c.text ≤ 10000) ∧
    (∀ text : List Char,
      List.Chain' (fun c1 c2 => c2.start_char + 2000 = c1.end_char ∧
          estimate_tokens (pySlice text c2.start_char c1.end_char) = 500)
        (chunk_large_text_for_extraction text)) ∧
    (∀ text : List Char, ∀ c ∈ chunk_large_text_for_extraction text,
      c.end_char < text.length →
      (∃ p, min (c.start_char + 40000) text.length - 500 < p ∧
        p < min (c.start_char + 40000) text.length ∧
        isSentenceEnd (text.getD p ' ') = true) →
      1 ≤ c.end_char ∧ isSentenceEnd (text.getD (c.end_char - 1) ' ') = true) ∧
    (∀ text : List Char, text.length = 60000 →
      (chunk_large_text_for_extraction text).length = 2) := by
  refine ⟨?_, ?_, ?_, ?_, ?_⟩
  · intro text h
    unfold chunk_large_text_for_extraction
    rw [if_pos h]
  · intro text c hc
    unfold chunk_large_text_for_extraction at hc
    by_cases h : estimate_tokens text ≤ 10000
    · rw [if_pos h] at hc
      have hc2 := List.mem_singleton.mp hc
      subst hc2
      exact h
    · rw [if_neg h] at hc
      obtain ⟨c0, hc0, hceq⟩ := List.mem_map.mp hc
      obtain ⟨ht, hle, h40, hlt, _⟩ :=
        chunkLoop_mem_props text (text.length + 1) 0 0 c0 hc0
      subst hceq
      show estimate_tokens c0.text ≤ 10000
      unfold estimate_tokens
      rw [ht, pySlice_length, min_eq_left hle]
      calc (c0.end_char - c0.start_char) / 4 ≤ 40000 / 4 :=
            Nat.div_le_div_right (by omega)
        _ = 10000 := rfl
  · intro text
    unfold chunk_large_text_for_extraction
    by_cases h : estimate_tokens text ≤ 10000
    · rw [if_pos h]
      exact List.chain'_singleton _
    · rw [if_neg h]
      rw [List.chain'_map]
      exact List.Chain'.imp (fun a b hab => hab)
        (chunkLoop_chain text (text.length + 1) 0 0)
  · intro text c hc hend hex
    unfold chunk_large_text_for_extraction at hc
    by_cases h : estimate_tokens text ≤ 10000
    · rw [if_pos h] at hc
      have hc2 := List.mem_singleton.mp hc
      subst hc2
      exact absurd hend (lt_irrefl _)
    · rw [if_neg h] at hc
      obtain ⟨c0, hc0, hceq⟩ := List.mem_map.mp hc
      obtain ⟨_, _, _, hlt, hint⟩ :=
        chunkLoop_mem_props text (text.length + 1) 0 0 c0 hc0
      subst hceq
      dsimp only at hend hex ⊢
      obtain ⟨h1, hbig, h3⟩ := hint hend
      obtain ⟨p, hp1, hp2, hp3⟩ := hex
      rw [min_eq_left (le_of_lt hbig)] at hp1 hp2
      refine ⟨by omega, ?_⟩
      exact h3 p (by omega) hp2 hp3
  · intro text h60
    unfold chunk_large_text_for_extraction
    rw [if_neg (by unfold estimate_tokens; rw [h60]; omega)]
    rw [List.length_map]
    rw [show text.length + 1 = 59999 + 2 from by omega]
    exact chunkLoop_length_two text h60 59999

/-- Witness for C3: the contract applied to a two-character text (single
window) and to a 60,000-character text (two windows). -/
theorem chunk_large_text_contract_witness :
    chunk_large_text_for_extraction ['h', 'i'] =
      [{ text := ['h', 'i']
         start_char := 0
         end_char := (['h', 'i'] : List Char).length
         chunk_index := 0
         total_chunks := some 1 }] ∧
    (chunk_large_text_for_extraction (List.replicate 60000 'a')).length = 2 :=
  ⟨chunk_large_text_contract.1 ['h', 'i'] (by decide),
   chunk_large_text_contract.2.2.2.2 (List.replicate 60000 'a')
     (by rw [List.length_replicate])⟩

/-- Claim C2: for every day and every routing decision, if the ledger holds
at most one ACTIVE block for that day before the engine executes the routing
scenario, then it still holds at most one ACTIVE block for that day
afterwards.  Block identifiers are pairwise distinct (`block_id` is the
primary key of `daily_ledger`). -/
theorem routing_preserves_single_active :
    ∀ (s : Ledger) (day_id : String) (rd : RoutingDecision) (kw : List String),
      (s.blocks.map (fun b => b.block_id)).Nodup →
      activeCount s day_id ≤ 1 →
      activeCount (executeRouting s day_id rd kw).1 day_id ≤ 1 := by
  intro s day_id rd kw hnd hle
  unfold executeRouting
  cases hm : truthyId rd.matched_block_id with
  | some mid =>
    cases hla : (get_active_bridge_blocks s day_id).head? with
    | some act =>
      simp only [hm, hla]
      by_cases hmid : (mid == act.block_id) = true
      · rw [if_pos hmid]
        exact hle
      · rw [if_neg hmid]
        cases hn : rd.is_new_topic with
        | false =>
          simp only [hn, Bool.not_false, if_pos]
          simp only [generate_block_summary]
          apply activeCount_activate_le_one
          · rw [update_status_ids]
            exact hnd
          · exact activeCount_pause_head s day_id act hla hle
        | true =>
          simp only [hn, Bool.not_true, Bool.false_eq_true, if_false]
          exact le_of_eq (activeCount_create _ day_id rd.suggested_label)
    | none =>
      simp only [hm, hla]
      cases hn : rd.is_new_topic with
      | false =>
        simp only [hn, Bool.not_false, if_pos]
        apply activeCount_activate_le_one
        · exact hnd
        · exact activeCount_of_head_none s day_id hla
      | true =>
        simp only [hn, Bool.not_true, Bool.false_eq_true, if_false]
        exact le_of_eq (activeCount_create _ day_id rd.suggested_label)
  | none =>
    cases hla : (get_active_bridge_blocks s day_id).head? with
    | some act =>
      simp only [hm, hla]
      cases hn : rd.is_new_topic with
      | false =>
        simp only [hn, Bool.false_eq_true, if_false]
        exact le_of_eq (activeCount_create _ day_id rd.suggested_label)
      | true =>
        simp only [hn, if_true]
        exact le_of_eq (activeCount_create _ day_id rd.suggested_label)
    | none =>
      simp only [hm, hla]
      exact le_of_eq (activeCount_create _ day_id rd.suggested_label)

/-- Witness for C2: the invariant applied to a concrete ledger with one
ACTIVE block and the defensive fallback decision. -/
theorem routing_preserves_single_active_witness :
    activeCount (executeRouting ⟨[⟨"b1", "d", "t", BlockStatus.ACTIVE⟩], 5⟩ "d"
      ⟨none, false, "lbl"⟩ []).1 "d" ≤ 1 :=
  routing_preserves_single_active ⟨[⟨"b1", "d", "t", BlockStatus.ACTIVE⟩], 5⟩ "d"
    ⟨none, false, "lbl"⟩ [] (by simp) (by decide)

/-- Environment for the C1 counterexample: the Governor, the LLM call and
`log_conversation_turn` all succeed, while `append_turn_to_block` reports
failure by returning `False` without raising. -/
def cexEnvC1 : HandleChatEnv :=
  { apiAvailable := true
    governResult := .ok defaultGovResult
    llmResult := .ok "hello"
    appendResult := .ok false
    logTurnResult := .ok () }

/-- Claim C1, counterexample: when `append_turn_to_block` reports failure by
returning `False` (line 446), the engine merely logs the failure (lines
448-449) and still returns a response with status SUCCESS (line 464), so a
turn whose persistence step failed is surfaced as SUCCESS, contradicting the
claim. -/
theorem append_failure_still_success :
    cexEnvC1.appendResult = .ok false ∧
    (handleChat cexEnvC1 ⟨[], 0⟩ "2026-01-01").status = ResponseStatus.SUCCESS := by
  exact ⟨rfl, rfl⟩

/-- Claim C1 (amended): if a `StorageWriteError` (or any other exception) is
raised during the persistence step — by `append_turn_to_block` or by
`log_conversation_turn` — then the response returned to the user has status
ERROR; however, when `append_turn_to_block` merely reports failure by
returning `False` without raising, the engine logs the failure and still
returns a SUCCESS response. -/
theorem persistence_exception_yields_error :
    ∀ (env : HandleChatEnv) (s : Ledger) (day_id : String),
      env.apiAvailable = true →
      ((∃ e, env.appendResult = .error e) ∨ (∃ e, env.logTurnResult = .error e)) →
      (handleChat env s day_id).status = ResponseStatus.ERROR := by
  intro env s day_id hapi hfail
  obtain ⟨api, govr, llmr, appr, logr⟩ := env
  dsimp only at hapi hfail
  subst hapi
  have hllm : ∀ gov : GovResult, resolveGovern govr = .ok gov →
      (handleChat ⟨true, govr, llmr, appr, logr⟩ s day_id).status
        = ResponseStatus.ERROR := by
    intro gov hg
    cases llmr with
    | error e =>
      show (match handleChatBody ⟨true, govr, .error e, appr, logr⟩ s day_id with
        | .ok r => r
        | .error .apiConnectionError => _
        | .error _ => _).status = ResponseStatus.ERROR
      have hb : handleChatBody ⟨true, govr, .error e, appr, logr⟩ s day_id
          = .error e := by
        unfold handleChatBody
        dsimp only
        rw [hg]
        rfl
      rw [hb]
      cases e <;> rfl
    | ok t =>
      cases appr with
      | error e =>
        have hb : handleChatBody ⟨true, govr, .ok t, .error e, logr⟩ s day_id
            = .error e := by
          unfold handleChatBody
          dsimp only
          rw [hg]
          rfl
        show (match handleChatBody ⟨true, govr, .ok t, .error e, logr⟩ s day_id with
          | .ok r => r
          | .error .apiConnectionError => _
          | .error _ => _).status = ResponseStatus.ERROR
        rw [hb]
        cases e <;> rfl
      | ok b =>
        cases logr with
        | error e =>
          have hb : handleChatBody ⟨true, govr, .ok t, .ok b, .error e⟩ s day_id
              = .error e := by
            unfold handleChatBody
            dsimp only
            rw [hg]
            rfl
          show (match handleChatBody ⟨true, govr, .ok t, .ok b, .error e⟩ s day_id with
            | .ok r => r
            | .error .apiConnectionError => _
            | .error _ => _).status = ResponseStatus.ERROR
          rw [hb]
          cases e <;> rfl
        | ok u =>
          exfalso
          rcases hfail with ⟨e, he⟩ | ⟨e, he⟩ <;> exact Except.noConfusion he
  cases hg : resolveGovern govr with
  | ok gov => exact hllm gov hg
  | error e =>
    have hb : handleChatBody ⟨true, govr, llmr, appr, logr⟩ s day_id = .error e := by
      unfold handleChatBody
      dsimp only
      rw [hg]
      rfl
    show (match handleChatBody ⟨true, govr, llmr, appr, logr⟩ s day_id with
      | .ok r => r
      | .error .apiConnectionError => _
      | .error _ => _).status = ResponseStatus.ERROR
    rw [hb]
    cases e <;> rfl

/-- Witness for the amended C1: a persistence failure that raises
`StorageWriteError` yields an ERROR response. -/
theorem persistence_exception_yields_error_witness :
    (handleChat
      { apiAvailable := true
        governResult := .ok defaultGovResult
        llmResult := .ok "hello"
        appendResult := .error .storageWriteError
        logTurnResult := .ok () } ⟨[], 0⟩ "2026-01-01").status
      = ResponseStatus.ERROR :=
  persistence_exception_yields_error
    { apiAvailable := true
      governResult := .ok defaultGovResult
      llmResult := .ok "hello"
      appendResult := .error .storageWriteError
      logTurnResult := .ok () } ⟨[], 0⟩ "2026-01-01" rfl
    (Or.inl ⟨.storageWriteError, rfl⟩)

/-- Claim C5: whenever `Governor.govern` fails with a `RetrievalError`, the
engine proceeds with the default routing decision (no matched block, new
topic, label "General Discussion") and with empty memory, fact and dossier
results, rather than aborting the turn: if the remaining external calls
succeed, the turn completes with status SUCCESS and zero retrieved
contexts. -/
theorem retrieval_error_falls_back :
    ∀ (env : HandleChatEnv) (s : Ledger) (day_id t : String) (b : Bool),
      env.apiAvailable = true →
      env.governResult = .error .retrievalError →
      env.llmResult = .ok t →
      env.appendResult = .ok b →
      env.logTurnResult = .ok () →
      resolveGovern env.governResult = .ok defaultGovResult ∧
      defaultGovResult.routing =
        ⟨none, true, "General Discussion"⟩ ∧
      defaultGovResult.memories = [] ∧
      defaultGovResult.facts = [] ∧
      defaultGovResult.dossiers = [] ∧
      (handleChat env s day_id).status = ResponseStatus.SUCCESS ∧
      (handleChat env s day_id).contexts_retrieved = 0 := by
  intro env s day_id t b hapi hgov hllm happ hlog
  obtain ⟨api, govr, llmr, appr, logr⟩ := env
  simp only at hapi hgov hllm happ hlog
  subst hapi hgov hllm happ hlog
  exact ⟨rfl, rfl, rfl, rfl, rfl, rfl, rfl⟩

/-- Witness for C5: the fallback applied to a concrete environment whose
Governor raises `RetrievalError`. -/
theorem retrieval_error_falls_back_witness :
    (handleChat
      { apiAvailable := true
        governResult := .error .retrievalError
        llmResult := .ok "ok"
        appendResult := .ok true
        logTurnResult := .ok () } ⟨[], 0⟩ "2026-01-01").status
      = ResponseStatus.SUCCESS :=
  (retrieval_error_falls_back
    { apiAvailable := true
      governResult := .error .retrievalError
      llmResult := .ok "ok"
      appendResult := .ok true
      logTurnResult := .ok () } ⟨[], 0⟩ "2026-01-01" "ok" true
    rfl rfl rfl rfl rfl).2.2.2.2.2.1

/-- Claim C9: the texts handed to embedding storage by
`log_conversation_turn` are computed from the user message only; two runs
differing only in the assistant response embed exactly the same texts, so no
text derived from the assistant response is ever embedded. -/
theorem turn_embedding_texts_user_only :
    ∀ (ce : Option (String → String → List EngineChunk))
      (store : EmbeddingStore) (turn_id u a a' : String),
      turnEmbeddingTexts ce turn_id u a = turnEmbeddingTexts ce turn_id u a' ∧
      logTurnEmbeddingEffect ce store turn_id u a =
        logTurnEmbeddingEffect ce store turn_id u a' := by
  intro ce store turn_id u a a'
  exact ⟨rfl, rfl⟩

end HMLR
